import Mathlib

/-!
# Verification of the LSP transport and request-multiplexing layer

Shallow embedding of the LSP core of the Fast-Editor repository:
the `Content-Length` message framer, the request correlator and the
notification routing of the main process (`src/unnamed/part_000`,
lines 1123-1307), and the renderer-side document session tracker
(`src/renderer/lsp.js`).

JavaScript strings are modelled as `List Char` (one entry per UTF-16
code unit; all characters used here are in the basic plane, where one
code unit is one scalar).  `Buffer.byteLength` is modelled by the UTF-8
byte count `utf8Len`.  The host JSON library (`JSON.parse` /
`JSON.stringify`) is an external collaborator; it is modelled on the
integer-numeral fragment of JSON by `Json.parse` / `Json.stringify`.
-/

/-- JSON values, as produced by `JSON.parse` on the fragment the LSP
layer exchanges (numbers restricted to integers). -/
inductive Json where
  | null : Json
  | bool : Bool → Json
  | num : Int → Json
  | str : List Char → Json
  | arr : List Json → Json
  | obj : List (List Char × Json) → Json

/-- Fuel-indexed worker for `natDigits`; with fuel above `n` it renders
the decimal digits of `n`, most significant first. -/
def natDigitsAux : Nat → Nat → List Char
  | 0, _ => []
  | fuel + 1, n =>
    if n < 10 then [Char.ofNat (48 + n)]
    else natDigitsAux fuel (n / 10) ++ [Char.ofNat (48 + n % 10)]

/-- Decimal digits of a natural number, most significant first
(the spelling `${n}` / `parseInt` works with). -/
def natDigits (n : Nat) : List Char := natDigitsAux (n + 1) n

/-- Numeric value of a digit character (`parseInt` on one digit). -/
def digitVal (c : Char) : Nat := c.toNat - 48

/-- Value of a decimal digit string, as `parseInt` computes it. -/
def digitsVal (ds : List Char) : Nat :=
  ds.foldl (fun a c => a * 10 + digitVal c) 0

/-- Decimal rendering of a JavaScript integer (`JSON.stringify` on an
integer number). -/
def intDigits (i : Int) : List Char :=
  if i < 0 then '-' :: natDigits i.natAbs else natDigits i.natAbs

/-- UTF-8 byte width of one character (`Buffer.byteLength` counts
these). -/
def charUtf8Len (c : Char) : Nat :=
  if c.toNat < 0x80 then 1
  else if c.toNat < 0x800 then 2
  else if c.toNat < 0x10000 then 3
  else 4

/-- UTF-8 byte length of a string, `Buffer.byteLength(s)`. -/
def utf8Len (s : List Char) : Nat := (s.map charUtf8Len).sum

/-- Hexadecimal digit character. -/
def hexDigit (n : Nat) : Char :=
  if n < 10 then Char.ofNat (48 + n) else Char.ofNat (87 + n)

/-- JSON string-literal escaping of one character, as the host
serializer performs it (control characters written as escapes,
everything else verbatim). -/
def escapeChar (c : Char) : List Char :=
  if c = '"' then ['\\', '"']
  else if c = '\\' then ['\\', '\\']
  else if c = '\n' then ['\\', 'n']
  else if c = '\r' then ['\\', 'r']
  else if c = '\t' then ['\\', 't']
  else if c.toNat < 32 then
    ['\\', 'u', '0', '0', hexDigit (c.toNat / 16), hexDigit (c.toNat % 16)]
  else [c]

/-- Serialized JSON string literal, quotes included. -/
def strLit (s : List Char) : List Char :=
  '"' :: (s.map escapeChar).flatten ++ ['"']

mutual

/-- Model of `JSON.stringify` on the modelled JSON fragment (no added
whitespace, insertion-order object keys). -/
def Json.stringify : Json → List Char
  | .num i => intDigits i
  | .bool b => if b then "true".toList else "false".toList
  | .null => "null".toList
  | .str s => strLit s
  | .arr xs => '[' :: Json.stringifyArr xs ++ [']']
  | .obj fs => Char.ofNat 123 :: Json.stringifyObj fs ++ [Char.ofNat 125]

/-- Comma-separated serialization of array elements. -/
def Json.stringifyArr : List Json → List Char
  | [] => []
  | [x] => Json.stringify x
  | x :: y :: xs => Json.stringify x ++ ',' :: Json.stringifyArr (y :: xs)

/-- Comma-separated serialization of object members. -/
def Json.stringifyObj : List (List Char × Json) → List Char
  | [] => []
  | [(k, v)] => strLit k ++ ':' :: Json.stringify v
  | (k, v) :: f :: fs => strLit k ++ ':' :: Json.stringify v ++ ',' :: Json.stringifyObj (f :: fs)

end

/-- JSON insignificant whitespace. -/
def isJsonWs (c : Char) : Bool :=
  c = ' ' || c = '\n' || c = '\r' || c = '\t'

/-- Drop leading JSON whitespace. -/
def skipWs (s : List Char) : List Char := s.dropWhile isJsonWs

/-- Decode one string-literal escape (the character after a
backslash); returns the decoded character and the remaining input. -/
def unescape1 (e : Char) (rest : List Char) : Option (Char × List Char) :=
  if e = '"' then some ('"', rest)
  else if e = '\\' then some ('\\', rest)
  else if e = '/' then some ('/', rest)
  else if e = 'n' then some ('\n', rest)
  else if e = 'r' then some ('\r', rest)
  else if e = 't' then some ('\t', rest)
  else if e = 'b' then some (Char.ofNat 8, rest)
  else if e = 'f' then some (Char.ofNat 12, rest)
  else if e = 'u' then
    match rest with
    | h1 :: h2 :: h3 :: h4 :: r =>
      let hv : Char → Option Nat := fun c =>
        if c.isDigit then some (c.toNat - 48)
        else if 'a' ≤ c ∧ c ≤ 'f' then some (c.toNat - 87)
        else if 'A' ≤ c ∧ c ≤ 'F' then some (c.toNat - 55)
        else none
      match hv h1, hv h2, hv h3, hv h4 with
      | some a, some b, some c, some d =>
        some (Char.ofNat (((a * 16 + b) * 16 + c) * 16 + d), r)
      | _, _, _, _ => none
    | _ => none
  else none

mutual

/-- Fuel-indexed recursive-descent parser for one JSON value; models
`JSON.parse` (which the source calls on every framed payload) on the
integer-numeral fragment.  Returns the value and the unconsumed
input, or `none` where `JSON.parse` would throw. -/
def parseVal : Nat → List Char → Option (Json × List Char)
  | 0, _ => none
  | fuel + 1, s =>
    match skipWs s with
    | [] => none
    | c :: rest =>
      if c = 'n' then
        match rest with
        | 'u' :: 'l' :: 'l' :: r => some (.null, r)
        | _ => none
      else if c = 't' then
        match rest with
        | 'r' :: 'u' :: 'e' :: r => some (.bool true, r)
        | _ => none
      else if c = 'f' then
        match rest with
        | 'a' :: 'l' :: 's' :: 'e' :: r => some (.bool false, r)
        | _ => none
      else if c = '"' then
        match parseStrBody fuel rest with
        | some (cs, r) => some (.str cs, r)
        | none => none
      else if c = '[' then
        match skipWs rest with
        | ']' :: r => some (.arr [], r)
        | _ =>
          match parseArrItems fuel rest with
          | some (xs, r) => some (.arr xs, r)
          | none => none
      else if c = Char.ofNat 123 then
        match skipWs rest with
        | m :: r =>
          if m = Char.ofNat 125 then some (.obj [], r)
          else
            match parseObjItems fuel (m :: r) with
            | some (fs, r2) => some (.obj fs, r2)
            | none => none
        | [] => none
      else if c = '-' then
        let ds := rest.takeWhile Char.isDigit
        if ds.isEmpty then none
        else some (.num (-(digitsVal ds : Int)), rest.drop ds.length)
      else if c.isDigit then
        let ds := (c :: rest).takeWhile Char.isDigit
        some (.num (digitsVal ds : Int), (c :: rest).drop ds.length)
      else none

/-- Body of a string literal after the opening quote; stops at the
closing quote. -/
def parseStrBody : Nat → List Char → Option (List Char × List Char)
  | 0, _ => none
  | fuel + 1, s =>
    match s with
    | [] => none
    | c :: rest =>
      if c = '"' then some ([], rest)
      else if c = '\\' then
        match rest with
        | [] => none
        | e :: rest2 =>
          match unescape1 e rest2 with
          | none => none
          | some (d, r3) =>
            match parseStrBody fuel r3 with
            | some (cs, r) => some (d :: cs, r)
            | none => none
      else
        match parseStrBody fuel rest with
        | some (cs, r) => some (c :: cs, r)
        | none => none

/-- One-or-more comma-separated array elements, then `]`. -/
def parseArrItems : Nat → List Char → Option (List Json × List Char)
  | 0, _ => none
  | fuel + 1, s =>
    match parseVal fuel s with
    | none => none
    | some (x, r) =>
      match skipWs r with
      | ',' :: r2 =>
        match parseArrItems fuel r2 with
        | some (xs, r3) => some (x :: xs, r3)
        | none => none
      | ']' :: r2 => some ([x], r2)
      | _ => none

/-- One-or-more comma-separated object members, then the closing
brace. -/
def parseObjItems : Nat → List Char → Option (List (List Char × Json) × List Char)
  | 0, _ => none
  | fuel + 1, s =>
    match skipWs s with
    | '"' :: r =>
      match parseStrBody fuel r with
      | none => none
      | some (k, r2) =>
        match skipWs r2 with
        | ':' :: r3 =>
          match parseVal fuel r3 with
          | none => none
          | some (v, r4) =>
            match skipWs r4 with
            | ',' :: r5 =>
              match parseObjItems fuel r5 with
              | some (fs, r6) => some ((k, v) :: fs, r6)
              | none => none
            | m :: r5 =>
              if m = Char.ofNat 125 then some ([(k, v)], r5) else none
            | [] => none
        | _ => none
    | _ => none

end

/-- Model of `JSON.parse` on a whole input: one value, then only trailing
whitespace; `none` models a thrown `SyntaxError`. -/
def Json.parse (s : List Char) : Option Json :=
  match parseVal (s.length + 2) s with
  | some (j, rest) => if (skipWs rest).isEmpty then some j else none
  | none => none

/-! ## Message Framer (src/unnamed/part_000, lines 1168-1191) -/

/-- Here `leadsWith l p` is true when `p` is an initial segment of `l`
(JavaScript `l.startsWith(p)` on strings). -/
def leadsWith : List Char → List Char → Bool
  | _, [] => true
  | [], _ :: _ => false
  | c :: cs, p :: ps => c == p && leadsWith cs ps

/-- The sixteen characters of the header key, `"Content-Length: "`. -/
def clPat : List Char :=
  ['C', 'o', 'n', 't', 'e', 'n', 't', '-', 'L', 'e', 'n', 'g', 't', 'h', ':', ' ']

/-- The header terminator `"\r\n\r\n"`. -/
def sepStr : List Char := ['\r', '\n', '\r', '\n']

/-- Match of the regex `Content-Length: (\d+)\r\n\r\n` anchored at the
head of the buffer: the literal key, a maximal nonempty digit run
(greedy `\d+`), then the terminator; returns the captured number. -/
def headClMatch (buf : List Char) : Option Nat :=
  if leadsWith buf clPat then
    let rest := buf.drop 16
    let ds := rest.takeWhile Char.isDigit
    if ds.isEmpty then none
    else if leadsWith (rest.drop ds.length) sepStr then some (digitsVal ds)
    else none
  else none

/-- Model of `messageBuffer.match(/Content-Length: (\d+)\r\n\r\n/)`: the capture
of the leftmost match, or `none` when the regex does not match. -/
def findCl : List Char → Option Nat
  | [] => none
  | c :: cs =>
    match headClMatch (c :: cs) with
    | some n => some n
    | none => findCl cs

/-- Model of `messageBuffer.indexOf('\r\n\r\n')`: position of the first
occurrence of the terminator, `none` for JavaScript's `-1`. -/
def findSep : List Char → Option Nat
  | [] => none
  | c :: cs =>
    if leadsWith (c :: cs) sepStr then some 0
    else (findSep cs).map Nat.succ

/-- Model of `messageStart = messageBuffer.indexOf('\r\n\r\n') + 4` (the source
computes `-1 + 4 = 3` when the terminator is absent). -/
def msgStart (buf : List Char) : Nat :=
  match findSep buf with
  | some j => j + 4
  | none => 3

theorem msgStart_ge3 (buf : List Char) : 3 ≤ msgStart buf := by
  unfold msgStart
  cases findSep buf <;> simp

/-- The payload dispatch inside the decode loop: `JSON.parse` the
sliced content and hand it to `handleLSPMessage`, or log and drop it
when parsing throws. -/
def parsedBit (content : List Char) : List Json :=
  match Json.parse content with
  | some m => [m]
  | none => []

/-- The `while ((contentLengthMatch = ...))` decode loop of the stdout
handler: repeatedly match the header regex, compute `messageStart`
from the first terminator, and when `header + N` characters are
buffered slice out the content, drop the consumed front and continue;
otherwise stop and keep the buffer.  Returns the remaining buffer and
the messages dispatched, in order. -/
def processBuffer (buf : List Char) : List Char × List Json :=
  match findCl buf with
  | none => (buf, [])
  | some n =>
    if h : msgStart buf + n ≤ buf.length then
      let content := (buf.drop (msgStart buf)).take n
      let rest := processBuffer (buf.drop (msgStart buf + n))
      (rest.1, parsedBit content ++ rest.2)
    else (buf, [])
termination_by buf.length
decreasing_by
  have h3 := msgStart_ge3 buf
  simp only [List.length_drop]
  omega

/-- Per-instance framer state: the accumulating `messageBuffer` and
the messages dispatched so far. -/
structure FramerState where
  buffer : List Char
  emitted : List Json

/-- One `'data'` event: append the chunk to the buffer and run the
decode loop. -/
def feed (st : FramerState) (chunk : List Char) : FramerState :=
  let p := processBuffer (st.buffer ++ chunk)
  { buffer := p.1, emitted := st.emitted ++ p.2 }

/-- A sequence of `'data'` events. -/
def feedAll (chunks : List (List Char)) (st : FramerState) : FramerState :=
  chunks.foldl feed st

/-- Fresh instance: empty buffer, nothing emitted. -/
def initFramer : FramerState := ⟨[], []⟩

/-- Model of `` `Content-Length: ${Buffer.byteLength(content)}\r\n\r\n${content}` ``
(src/unnamed/part_000, line 1259): the framed encoding of a serialized
payload, with the declared length the UTF-8 byte count. -/
def encodeMsg (content : List Char) : List Char :=
  clPat ++ natDigits (utf8Len content) ++ sepStr ++ content

/-- A frame whose declared length is the character count of the
payload; for all-ASCII payloads this coincides with `encodeMsg`. -/
def mkFrame (p : List Char) : List Char :=
  clPat ++ natDigits p.length ++ sepStr ++ p

/-! ## Lemmas about the framer primitives -/

theorem leadsWith_iff {l p : List Char} :
    leadsWith l p = true ↔ ∃ r, l = p ++ r := by
  induction p generalizing l with
  | nil => simp [leadsWith]
  | cons x ps ih =>
    cases l with
    | nil =>
      simp only [leadsWith, List.cons_append]
      constructor
      · intro h; cases h
      · rintro ⟨r, h⟩; cases h
    | cons c cs =>
      simp only [leadsWith, Bool.and_eq_true, beq_iff_eq, ih, List.cons_append]
      constructor
      · rintro ⟨rfl, r, rfl⟩; exact ⟨r, rfl⟩
      · rintro ⟨r, h⟩
        injection h with h1 h2
        exact ⟨h1, r, h2⟩

theorem leadsWith_append_self (p r : List Char) : leadsWith (p ++ r) p = true :=
  leadsWith_iff.mpr ⟨r, rfl⟩

theorem leadsWith_length {l p : List Char} (h : leadsWith l p = true) :
    p.length ≤ l.length := by
  obtain ⟨r, rfl⟩ := leadsWith_iff.mp h
  simp

theorem leadsWith_append_left (l p e : List Char)
    (h : p.length ≤ l.length) : leadsWith (l ++ e) p = leadsWith l p := by
  induction p generalizing l with
  | nil => simp [leadsWith]
  | cons x ps ih =>
    cases l with
    | nil => simp at h
    | cons c cs =>
      simp only [List.cons_append, leadsWith, List.append_eq]
      simp only [List.length_cons, Nat.succ_le_succ_iff] at h
      rw [ih cs h]


theorem natDigitsAux_ne_nil (fuel n : Nat) : natDigitsAux (fuel + 1) n ≠ [] := by
  rw [natDigitsAux]
  split <;> simp

theorem natDigits_ne_nil (n : Nat) : natDigits n ≠ [] :=
  natDigitsAux_ne_nil n n

theorem char_digit_isDigit {d : Nat} (hd : d < 10) :
    (Char.ofNat (48 + d)).isDigit = true := by
  interval_cases d <;> decide

theorem char_digit_val {d : Nat} (hd : d < 10) :
    digitVal (Char.ofNat (48 + d)) = d := by
  interval_cases d <;> decide

theorem ne_cr_of_isDigit {c : Char} (h : c.isDigit = true) : c ≠ '\r' := by
  intro hc
  subst hc
  exact absurd h (by decide)

theorem natDigitsAux_isDigit : ∀ (fuel n : Nat), ∀ c ∈ natDigitsAux fuel n, c.isDigit
  | 0, n => by simp [natDigitsAux]
  | fuel + 1, n => by
    rw [natDigitsAux]
    by_cases h : n < 10
    · rw [if_pos h]
      rintro c hc
      simp only [List.mem_singleton] at hc
      subst hc
      exact char_digit_isDigit h
    · rw [if_neg h]
      intro c hc
      rcases List.mem_append.mp hc with h1 | h1
      · exact natDigitsAux_isDigit fuel (n / 10) c h1
      · simp only [List.mem_singleton] at h1
        subst h1
        exact char_digit_isDigit (Nat.mod_lt _ (by omega))

theorem natDigits_isDigit (n : Nat) : ∀ c ∈ natDigits n, c.isDigit :=
  natDigitsAux_isDigit (n + 1) n

theorem digitsVal_append_one (l : List Char) (c : Char) :
    digitsVal (l ++ [c]) = digitsVal l * 10 + digitVal c := by
  simp [digitsVal, List.foldl_append]

theorem digitsVal_natDigitsAux : ∀ (fuel n : Nat), n < fuel →
    digitsVal (natDigitsAux fuel n) = n
  | 0, n, h => by omega
  | fuel + 1, n, h => by
    rw [natDigitsAux]
    by_cases h10 : n < 10
    · rw [if_pos h10]
      have hone : digitsVal [Char.ofNat (48 + n)] = digitVal (Char.ofNat (48 + n)) := by
        simp [digitsVal]
      rw [hone, char_digit_val h10]
    · rw [if_neg h10]
      have hdiv : n / 10 < fuel := by
        have := Nat.div_lt_self (show 0 < n by omega) (show 1 < 10 by omega)
        omega
      rw [digitsVal_append_one, digitsVal_natDigitsAux fuel (n / 10) hdiv,
        char_digit_val (Nat.mod_lt _ (by omega))]
      omega

theorem digitsVal_natDigits (n : Nat) : digitsVal (natDigits n) = n :=
  digitsVal_natDigitsAux (n + 1) n (by omega)

theorem takeWhile_all_append {p : Char → Bool} {ds : List Char} (x : Char)
    (t : List Char) (hds : ∀ c ∈ ds, p c) (hx : p x = false) :
    (ds ++ x :: t).takeWhile p = ds := by
  induction ds with
  | nil => simp [List.takeWhile_cons, hx]
  | cons d ds ih =>
    have hd : p d := hds d (by simp)
    simp only [List.cons_append, List.takeWhile_cons_of_pos hd]
    rw [ih (fun c hc => hds c (by simp [hc]))]

theorem headClMatch_some_iff {buf : List Char} {n : Nat} :
    headClMatch buf = some n ↔
      ∃ ds r, buf = clPat ++ ds ++ sepStr ++ r ∧ ds ≠ [] ∧
        (∀ c ∈ ds, c.isDigit) ∧ n = digitsVal ds := by
  constructor
  · intro h
    unfold headClMatch at h
    by_cases hl : leadsWith buf clPat = true
    · rw [if_pos hl] at h
      obtain ⟨rest, rfl⟩ := leadsWith_iff.mp hl
      have hdrop : (clPat ++ rest).drop 16 = rest :=
        List.drop_left' (by decide)
      rw [hdrop] at h
      set ds := rest.takeWhile Char.isDigit with hds
      by_cases hne : ds.isEmpty
      · rw [if_pos hne] at h; cases h
      · rw [if_neg hne] at h
        by_cases hsep : leadsWith (rest.drop ds.length) sepStr = true
        · rw [if_pos hsep] at h
          injection h with h
          obtain ⟨r2, hr2⟩ := leadsWith_iff.mp hsep
          refine ⟨ds, r2, ?_, ?_, ?_, h.symm⟩
          · have hsplit : rest = ds ++ rest.dropWhile Char.isDigit := by
              rw [hds]; exact (List.takeWhile_append_dropWhile _ _).symm
            have hdw : rest.drop ds.length = rest.dropWhile Char.isDigit := by
              conv_lhs => rw [hsplit]
              exact List.drop_left' rfl
            rw [hdw] at hr2
            rw [hsplit, hr2]
            simp [List.append_assoc]
          · intro hnil
            rw [hnil] at hne
            exact hne rfl
          · intro c hc
            exact List.mem_takeWhile_imp (hds ▸ hc)
        · rw [if_neg hsep] at h; cases h
    · rw [if_neg hl] at h; cases h
  · rintro ⟨ds, r, rfl, hne, hdig, rfl⟩
    unfold headClMatch
    have hl : leadsWith (clPat ++ ds ++ sepStr ++ r) clPat = true := by
      have : clPat ++ ds ++ sepStr ++ r = clPat ++ (ds ++ sepStr ++ r) := by
        simp [List.append_assoc]
      rw [this]
      exact leadsWith_append_self _ _
    rw [if_pos hl]
    have hdrop : (clPat ++ ds ++ sepStr ++ r).drop 16 = ds ++ sepStr ++ r := by
      have : clPat ++ ds ++ sepStr ++ r = clPat ++ (ds ++ sepStr ++ r) := by
        simp [List.append_assoc]
      rw [this]
      exact List.drop_left' (by decide)
    rw [hdrop]
    have htw : (ds ++ sepStr ++ r).takeWhile Char.isDigit = ds := by
      have : ds ++ sepStr ++ r = ds ++ '\r' :: ('\n' :: '\r' :: '\n' :: r) := by
        simp [sepStr, List.append_assoc]
      rw [this]
      exact takeWhile_all_append _ _ hdig (by decide)
    have hne' : ds.isEmpty = false := by
      cases ds with
      | nil => exact absurd rfl hne
      | cons a l => rfl
    have hdrop2 : (ds ++ sepStr ++ r).drop ds.length = sepStr ++ r := by
      have : ds ++ sepStr ++ r = ds ++ (sepStr ++ r) := by
        simp [List.append_assoc]
      rw [this]
      exact List.drop_left' rfl
    simp only [htw, hne', Bool.false_eq_true, if_false, hdrop2,
      leadsWith_append_self, if_true]

theorem headClMatch_append {buf : List Char} (ext : List Char) {n : Nat}
    (h : headClMatch buf = some n) : headClMatch (buf ++ ext) = some n := by
  obtain ⟨ds, r, rfl, hne, hdig, rfl⟩ := headClMatch_some_iff.mp h
  refine headClMatch_some_iff.mpr ⟨ds, r ++ ext, ?_, hne, hdig, rfl⟩
  simp [List.append_assoc]

theorem headClMatch_length {buf : List Char} {n : Nat}
    (h : headClMatch buf = some n) : 21 ≤ buf.length := by
  obtain ⟨ds, r, rfl, hne, _, _⟩ := headClMatch_some_iff.mp h
  have : 1 ≤ ds.length := by
    cases ds with
    | nil => exact absurd rfl hne
    | cons a l => simp
  simp only [List.length_append]
  have h16 : clPat.length = 16 := by decide
  have h4 : sepStr.length = 4 := by decide
  omega

theorem findCl_ex {l : List Char} {n : Nat} (h : findCl l = some n) :
    ∃ i, headClMatch (l.drop i) = some n := by
  induction l with
  | nil => cases h
  | cons c cs ih =>
    unfold findCl at h
    cases hh : headClMatch (c :: cs) with
    | some m =>
      rw [hh] at h
      injection h with h
      exact ⟨0, by rw [List.drop_zero, hh, h]⟩
    | none =>
      rw [hh] at h
      obtain ⟨i, hi⟩ := ih h
      exact ⟨i + 1, by simpa using hi⟩

/-- Appending to a buffer whose head does not match the header regex,
while a match exists deeper in the buffer, cannot create a match at
the head: a straddling candidate would need its digit run to run over
the `' '` of the deeper `"Content-Length: "` literal. -/
theorem headClMatch_append_none {buf ext : List Char} (K : Nat) {n₀ : Nat}
    (hnone : headClMatch buf = none)
    (hdeep : headClMatch (buf.drop K) = some n₀) (hK : 1 ≤ K) :
    headClMatch (buf ++ ext) = none := by
  cases hsome : headClMatch (buf ++ ext) with
  | none => rfl
  | some n' =>
    exfalso
    obtain ⟨ds, r, heq, hne, hdig, _⟩ := headClMatch_some_iff.mp hsome
    obtain ⟨ds₀, r₀, heq₀, hne₀, _, _⟩ := headClMatch_some_iff.mp hdeep
    have h16 : clPat.length = 16 := by decide
    have h4 : sepStr.length = 4 := by decide
    have hds1 : 1 ≤ ds.length := by
      cases ds with
      | nil => exact absurd rfl hne
      | cons a l => simp
    have hds₀1 : 1 ≤ ds₀.length := by
      cases ds₀ with
      | nil => exact absurd rfl hne₀
      | cons a l => simp
    -- the deeper match fits inside `buf`
    have hKlen : K ≤ buf.length := by
      by_contra hcon
      have hnil : buf.drop K = [] := List.drop_eq_nil_of_le (by omega)
      have hlen := congrArg List.length heq₀
      rw [hnil] at hlen
      simp only [List.length_nil, List.length_append, h16, h4] at hlen
      omega
    have hdropLen : (buf.drop K).length = 16 + ds₀.length + 4 + r₀.length := by
      rw [heq₀]
      simp only [List.length_append, h16, h4]
    have hbufLen : K + 21 ≤ buf.length := by
      have := List.length_drop K buf
      omega
    by_cases hfit : 16 + ds.length + 4 ≤ buf.length
    · -- the head candidate fits inside `buf`: `buf` itself matches
      have h5 : (clPat ++ ds ++ sepStr).length = 16 + ds.length + 4 := by
        simp only [List.length_append, h16, h4]
      have htake : buf = clPat ++ ds ++ sepStr ++
          r.take (buf.length - (16 + ds.length + 4)) := by
        calc buf = (buf ++ ext).take buf.length := by
              rw [List.take_append_of_le_length (Nat.le_refl _), List.take_length]
          _ = ((clPat ++ ds ++ sepStr) ++ r).take buf.length := by rw [heq]
          _ = (clPat ++ ds ++ sepStr).take buf.length ++
              r.take (buf.length - (clPat ++ ds ++ sepStr).length) := by
              rw [List.take_append_eq_append_take]
          _ = clPat ++ ds ++ sepStr ++ r.take (buf.length - (16 + ds.length + 4)) := by
              rw [List.take_of_length_le (by omega), h5]
      have : headClMatch buf = some (digitsVal ds) :=
        headClMatch_some_iff.mpr ⟨ds, _, htake, hne, hdig, rfl⟩
      rw [this] at hnone; cases hnone
    · -- straddling candidate: position K + 15 is both a digit and ' '
      push_neg at hfit
      have hKd : K + 15 < 16 + ds.length := by omega
      have hKb : K + 15 < buf.length := by omega
      have hlt : K + 15 < (buf ++ ext).length := by
        simp only [List.length_append]; omega
      have hdigit : (buf ++ ext)[K + 15] ∈ ds := by
        have hre : buf ++ ext = clPat ++ (ds ++ (sepStr ++ r)) := by
          rw [heq]; simp [List.append_assoc]
        rw [List.getElem_of_eq hre hlt,
          List.getElem_append_right (by rw [h16]; omega),
          List.getElem_append_left (by rw [h16]; omega)]
        exact List.getElem_mem _
      have hspace : (buf ++ ext)[K + 15] = ' ' := by
        rw [List.getElem_append_left hKb,
          List.getElem_drop' buf (by omega : K + 15 < buf.length),
          List.getElem_of_eq heq₀ (by omega),
          List.getElem_append_left (by simp only [List.length_append, h16]; omega),
          List.getElem_append_left (by simp only [List.length_append, h16]; omega),
          List.getElem_append_left (by rw [h16]; omega)]
        rfl
      have : (' ' : Char).isDigit := by
        rw [← hspace]
        exact hdig _ hdigit
      exact absurd this (by decide)

theorem findCl_append {buf : List Char} (ext : List Char) {n : Nat}
    (h : findCl buf = some n) : findCl (buf ++ ext) = some n := by
  induction buf with
  | nil => cases h
  | cons c cs ih =>
    rw [List.cons_append]
    unfold findCl at h ⊢
    cases hh : headClMatch (c :: cs) with
    | some m =>
      rw [hh] at h
      have := headClMatch_append ext hh
      rw [List.cons_append] at this
      rw [this]
      exact h
    | none =>
      rw [hh] at h
      obtain ⟨i, hi⟩ := findCl_ex h
      have hnone : headClMatch ((c :: cs) ++ ext) = none :=
        headClMatch_append_none (i + 1) hh (by simpa using hi) (by omega)
      rw [List.cons_append] at hnone
      rw [hnone]
      exact ih h

theorem findSep_le {l : List Char} {j : Nat} (h : findSep l = some j) :
    j + 4 ≤ l.length := by
  induction l generalizing j with
  | nil => cases h
  | cons c cs ih =>
    unfold findSep at h
    by_cases hl : leadsWith (c :: cs) sepStr = true
    · rw [if_pos hl] at h
      injection h with h
      have := leadsWith_length hl
      have hsl : sepStr.length = 4 := by decide
      omega
    · rw [if_neg hl] at h
      cases hcs : findSep cs with
      | none => rw [hcs] at h; cases h
      | some j' =>
        rw [hcs] at h
        injection h with h
        have := ih hcs
        simp only [List.length_cons]
        omega

theorem sepStr_length : sepStr.length = 4 := by decide

theorem findSep_append {buf : List Char} (ext : List Char) {j : Nat}
    (h : findSep buf = some j) : findSep (buf ++ ext) = some j := by
  induction buf generalizing j with
  | nil => cases h
  | cons c cs ih =>
    rw [List.cons_append]
    unfold findSep at h ⊢
    by_cases hl : leadsWith (c :: cs) sepStr = true
    · rw [if_pos hl] at h
      have : leadsWith (c :: (cs ++ ext)) sepStr = true := by
        obtain ⟨r, hr⟩ := leadsWith_iff.mp hl
        refine leadsWith_iff.mpr ⟨r ++ ext, ?_⟩
        rw [← List.cons_append, hr]
        simp [List.append_assoc]
      rw [if_pos this]
      exact h
    · rw [if_neg hl] at h
      cases hcs : findSep cs with
      | none => rw [hcs] at h; cases h
      | some j' =>
        rw [hcs] at h
        have h4 : 4 ≤ (c :: cs).length := by
          have := findSep_le hcs
          simp only [List.length_cons]
          omega
        have heqL : leadsWith (c :: (cs ++ ext)) sepStr = leadsWith (c :: cs) sepStr := by
          have h5 := leadsWith_append_left (c :: cs) sepStr ext
            (by rw [sepStr_length]; omega)
          rw [List.cons_append] at h5
          exact h5
        have hl' : leadsWith (c :: (cs ++ ext)) sepStr = false := by
          rw [heqL]
          simpa using hl
        rw [if_neg (by simp [hl'])]
        rw [ih hcs]
        exact h

theorem findSep_isSome_of {l : List Char} {i : Nat}
    (h : leadsWith (l.drop i) sepStr = true) : (findSep l).isSome := by
  induction l generalizing i with
  | nil =>
    rw [List.drop_nil] at h
    cases h
  | cons c cs ih =>
    unfold findSep
    by_cases hl : leadsWith (c :: cs) sepStr = true
    · rw [if_pos hl]; rfl
    · rw [if_neg hl]
      cases i with
      | zero =>
        rw [List.drop_zero] at h
        exact absurd h hl
      | succ i' =>
        have := ih (show leadsWith (cs.drop i') sepStr = true by simpa using h)
        cases hcs : findSep cs with
        | none => rw [hcs] at this; cases this
        | some j => simp

theorem findCl_sep {buf : List Char} {n : Nat} (h : findCl buf = some n) :
    ∃ j, findSep buf = some j := by
  obtain ⟨i, hi⟩ := findCl_ex h
  obtain ⟨ds, r, hdec, hne, _, _⟩ := headClMatch_some_iff.mp hi
  have hlw : leadsWith (buf.drop (i + (16 + ds.length))) sepStr = true := by
    have : buf.drop (i + (16 + ds.length)) = sepStr ++ r := by
      rw [← List.drop_drop, hdec]
      have : clPat ++ ds ++ sepStr ++ r = (clPat ++ ds) ++ (sepStr ++ r) := by
        simp [List.append_assoc]
      rw [this]
      exact List.drop_left' (by simp; decide)
    rw [this]
    exact leadsWith_append_self _ _
  have := findSep_isSome_of hlw
  cases hj : findSep buf with
  | none => rw [hj] at this; cases this
  | some j => exact ⟨j, rfl⟩

/-- Running the decode loop on `buf ++ ext` is the same as running it
on `buf`, then running it on the leftover joined with `ext`: the loop
stops only when no complete message is extractable, and appending data
on the right can neither change the leftmost header match nor the
first terminator of an extractable message. -/
theorem processBuffer_append (buf ext : List Char) :
    processBuffer (buf ++ ext) =
      ((processBuffer ((processBuffer buf).1 ++ ext)).1,
        (processBuffer buf).2 ++ (processBuffer ((processBuffer buf).1 ++ ext)).2) := by
  cases hcl : findCl buf with
  | none =>
    have hbuf : processBuffer buf = (buf, []) := by
      rw [processBuffer, hcl]
    rw [hbuf]
    simp
  | some n =>
    by_cases hle : msgStart buf + n ≤ buf.length
    · obtain ⟨j, hj⟩ := findCl_sep hcl
      have hms : msgStart (buf ++ ext) = msgStart buf := by
        unfold msgStart
        rw [hj, findSep_append ext hj]
      have hcl' : findCl (buf ++ ext) = some n := findCl_append ext hcl
      have hle' : msgStart (buf ++ ext) + n ≤ (buf ++ ext).length := by
        rw [hms]
        simp only [List.length_append]
        omega
      have hdrop1 : (buf ++ ext).drop (msgStart buf) =
          buf.drop (msgStart buf) ++ ext :=
        List.drop_append_of_le_length (by omega)
      have hcontent : ((buf ++ ext).drop (msgStart buf)).take n =
          (buf.drop (msgStart buf)).take n := by
        rw [hdrop1]
        exact List.take_append_of_le_length (by simp [List.length_drop]; omega)
      have hdrop2 : (buf ++ ext).drop (msgStart buf + n) =
          buf.drop (msgStart buf + n) ++ ext :=
        List.drop_append_of_le_length (by omega)
      have hlhs : processBuffer (buf ++ ext) =
          ((processBuffer (buf.drop (msgStart buf + n) ++ ext)).1,
            parsedBit ((buf.drop (msgStart buf)).take n) ++
              (processBuffer (buf.drop (msgStart buf + n) ++ ext)).2) := by
        rw [processBuffer, hcl']
        dsimp only
        rw [dif_pos hle']
        rw [hms, hcontent, hdrop2]
      have hrhs : processBuffer buf =
          ((processBuffer (buf.drop (msgStart buf + n))).1,
            parsedBit ((buf.drop (msgStart buf)).take n) ++
              (processBuffer (buf.drop (msgStart buf + n))).2) := by
        rw [processBuffer, hcl]
        dsimp only
        rw [dif_pos hle]
      have ih := processBuffer_append (buf.drop (msgStart buf + n)) ext
      rw [hlhs, hrhs, ih]
      simp [List.append_assoc]
    · have hbuf : processBuffer buf = (buf, []) := by
        rw [processBuffer, hcl]
        dsimp only
        rw [dif_neg hle]
      rw [hbuf]
      simp
termination_by buf.length
decreasing_by
  have h3 := msgStart_ge3 buf
  simp only [List.length_drop]
  omega

/-- The decode loop runs to quiescence: its leftover buffer contains
no further extractable message. -/
theorem processBuffer_leftover (buf : List Char) :
    processBuffer (processBuffer buf).1 = ((processBuffer buf).1, []) := by
  cases hcl : findCl buf with
  | none =>
    have hbuf : processBuffer buf = (buf, []) := by
      rw [processBuffer, hcl]
    rw [hbuf, hbuf]
  | some n =>
    by_cases hle : msgStart buf + n ≤ buf.length
    · have hstep : (processBuffer buf).1 =
          (processBuffer (buf.drop (msgStart buf + n))).1 := by
        rw [processBuffer, hcl]
        dsimp only
        rw [dif_pos hle]
      rw [hstep]
      exact processBuffer_leftover (buf.drop (msgStart buf + n))
    · have hbuf : processBuffer buf = (buf, []) := by
        rw [processBuffer, hcl]
        dsimp only
        rw [dif_neg hle]
      rw [hbuf, hbuf]
termination_by buf.length
decreasing_by
  have h3 := msgStart_ge3 buf
  simp only [List.length_drop]
  omega

/-- A run of `'data'` events starting from a quiescent buffer decodes
exactly what one event carrying the concatenation of all chunks would
decode: chunk boundaries do not matter. -/
theorem feedAll_eq_of_quiescent (chunks : List (List Char)) (b : List Char)
    (e : List Json) (hq : processBuffer b = (b, [])) :
    feedAll chunks ⟨b, e⟩ =
      ⟨(processBuffer (b ++ chunks.flatten)).1,
        e ++ (processBuffer (b ++ chunks.flatten)).2⟩ := by
  induction chunks generalizing b e with
  | nil =>
    simp only [feedAll, List.foldl_nil, List.flatten_nil, List.append_nil, hq]
  | cons c cs ih =>
    have hfeed : feed ⟨b, e⟩ c =
        ⟨(processBuffer (b ++ c)).1, e ++ (processBuffer (b ++ c)).2⟩ := rfl
    have hstep : feedAll (c :: cs) ⟨b, e⟩ = feedAll cs (feed ⟨b, e⟩ c) := rfl
    rw [hstep, hfeed,
      ih _ _ (processBuffer_leftover (b ++ c))]
    have happ := processBuffer_append (b ++ c) cs.flatten
    have hassoc : (b ++ c) ++ cs.flatten = b ++ (c :: cs).flatten := by
      simp [List.append_assoc]
    rw [hassoc] at happ
    rw [happ]
    simp [List.append_assoc]

/-- From a fresh framer, any chunking of a byte stream decodes as the
whole stream at once. -/
theorem feedAll_initFramer (chunks : List (List Char)) :
    feedAll chunks initFramer =
      ⟨(processBuffer chunks.flatten).1, (processBuffer chunks.flatten).2⟩ := by
  have h0 : processBuffer ([] : List Char) = ([], []) := by
    rw [processBuffer]
    rfl
  have := feedAll_eq_of_quiescent chunks [] [] h0
  simpa [initFramer] using this

theorem findSep_cons_pos {c : Char} {cs : List Char}
    (h : leadsWith (c :: cs) sepStr = true) : findSep (c :: cs) = some 0 := by
  unfold findSep
  rw [if_pos h]

theorem findSep_cons_neg {c : Char} {cs : List Char}
    (h : leadsWith (c :: cs) sepStr = false) :
    findSep (c :: cs) = (findSep cs).map Nat.succ := by
  unfold findSep
  rw [if_neg (by simp [h])]
  congr 1
  cases cs <;> rfl

theorem leadsWith_sep_false {c : Char} {x : List Char} (hc : c ≠ '\r') :
    leadsWith (c :: x) sepStr = false := by
  have : leadsWith (c :: x) sepStr = ((c == '\r') && leadsWith x ['\n', '\r', '\n']) := rfl
  rw [this]
  have : (c == '\r') = false := by
    simp [hc]
  rw [this]
  rfl

theorem findSep_of_no_cr (l r : List Char) (hl : ∀ c ∈ l, c ≠ '\r') :
    findSep (l ++ (sepStr ++ r)) = some l.length := by
  induction l with
  | nil =>
    simp only [List.nil_append, List.length_nil]
    have hpos : leadsWith (sepStr ++ r) sepStr = true := leadsWith_append_self _ _
    rw [show sepStr ++ r = '\r' :: ('\n' :: '\r' :: '\n' :: r) from rfl] at hpos ⊢
    exact findSep_cons_pos hpos
  | cons c cs ih =>
    have hc : c ≠ '\r' := hl c (by simp)
    rw [List.cons_append, findSep_cons_neg (leadsWith_sep_false hc),
      ih (fun x hx => hl x (by simp [hx]))]
    rfl

theorem findCl_of_head {l : List Char} {n : Nat} (h : headClMatch l = some n) :
    findCl l = some n := by
  cases l with
  | nil =>
    have : headClMatch ([] : List Char) = none := by decide
    rw [this] at h
    cases h
  | cons c cs =>
    unfold findCl
    rw [h]

theorem headClMatch_mkFrame (p rest : List Char) :
    headClMatch (mkFrame p ++ rest) = some p.length := by
  have hshape : mkFrame p ++ rest =
      clPat ++ natDigits p.length ++ sepStr ++ (p ++ rest) := by
    simp [mkFrame, List.append_assoc]
  have h := headClMatch_some_iff.mpr
    ⟨natDigits p.length, p ++ rest, rfl, natDigits_ne_nil _, natDigits_isDigit _, rfl⟩
  rw [hshape, h, digitsVal_natDigits]

theorem clPat_no_cr : ∀ c ∈ clPat, c ≠ '\r' := by decide

theorem clPat_length : clPat.length = 16 := by decide

/-- Decoding a buffer that is exactly a concatenation of well-formed
frames (declared length equal to the payload's character count) emits
the parse of every payload in order, skipping payloads `JSON.parse`
rejects, and consumes the whole buffer. -/
theorem processBuffer_frames (ps : List (List Char)) :
    processBuffer (ps.map mkFrame).flatten = ([], ps.filterMap Json.parse) := by
  induction ps with
  | nil =>
    simp only [List.map_nil, List.flatten_nil, List.filterMap_nil]
    rw [processBuffer]
    rfl
  | cons p ps ih =>
    have hflat : ((p :: ps).map mkFrame).flatten =
        mkFrame p ++ (ps.map mkFrame).flatten := by
      simp
    rw [hflat]
    have hcl : findCl (mkFrame p ++ (ps.map mkFrame).flatten) = some p.length :=
      findCl_of_head (headClMatch_mkFrame p _)
    have hnocr : ∀ c ∈ clPat ++ natDigits p.length, c ≠ '\r' := by
      intro c hc
      rcases List.mem_append.mp hc with h | h
      · exact clPat_no_cr c h
      · exact ne_cr_of_isDigit (natDigits_isDigit _ c h)
    have hsep : findSep (mkFrame p ++ (ps.map mkFrame).flatten) =
        some (16 + (natDigits p.length).length) := by
      have hshape : mkFrame p ++ (ps.map mkFrame).flatten =
          (clPat ++ natDigits p.length) ++
            (sepStr ++ (p ++ (ps.map mkFrame).flatten)) := by
        simp [mkFrame, List.append_assoc]
      rw [hshape, findSep_of_no_cr _ _ hnocr]
      simp [clPat_length]
    have hms : msgStart (mkFrame p ++ (ps.map mkFrame).flatten) =
        20 + (natDigits p.length).length := by
      unfold msgStart
      rw [hsep]
      dsimp only
      omega
    have hlen : (mkFrame p ++ (ps.map mkFrame).flatten).length =
        20 + (natDigits p.length).length + p.length +
          ((ps.map mkFrame).flatten).length := by
      simp [mkFrame, clPat_length, sepStr]
      omega
    have hle : msgStart (mkFrame p ++ (ps.map mkFrame).flatten) + p.length ≤
        (mkFrame p ++ (ps.map mkFrame).flatten).length := by
      rw [hms, hlen]
      omega
    have hcontent : ((mkFrame p ++ (ps.map mkFrame).flatten).drop
        (msgStart (mkFrame p ++ (ps.map mkFrame).flatten))).take p.length = p := by
      rw [hms]
      have hshape2 : mkFrame p ++ (ps.map mkFrame).flatten =
          (clPat ++ natDigits p.length ++ sepStr) ++
            (p ++ (ps.map mkFrame).flatten) := by
        simp [mkFrame, List.append_assoc]
      rw [hshape2, List.drop_left' (by simp [clPat_length, sepStr]; omega),
        List.take_left]
    have hleft : (mkFrame p ++ (ps.map mkFrame).flatten).drop
        (msgStart (mkFrame p ++ (ps.map mkFrame).flatten) + p.length) =
        (ps.map mkFrame).flatten := by
      rw [hms]
      have hshape3 : mkFrame p ++ (ps.map mkFrame).flatten =
          ((clPat ++ natDigits p.length ++ sepStr) ++ p) ++
            (ps.map mkFrame).flatten := by
        simp [mkFrame, List.append_assoc]
      rw [hshape3, List.drop_left' (by simp [clPat_length, sepStr]; omega)]
    rw [processBuffer, hcl]
    dsimp only
    rw [dif_pos hle, hcontent, hleft, ih]
    cases hp : Json.parse p <;>
      simp [parsedBit, hp, List.filterMap_cons]

/-! ## Framing claims -/

theorem utf8Len_ascii : ∀ {s : List Char}, (∀ c ∈ s, c.toNat < 128) →
    utf8Len s = s.length
  | [], _ => rfl
  | c :: cs, h => by
    have hc : charUtf8Len c = 1 := by
      unfold charUtf8Len
      rw [if_pos (h c (by simp))]
    have ih := utf8Len_ascii
      (show ∀ c ∈ cs, c.toNat < 128 from fun x hx => h x (by simp [hx]))
    simp only [utf8Len, List.map_cons, List.sum_cons, hc, List.length_cons] at ih ⊢
    omega

theorem encodeMsg_eq_mkFrame {s : List Char} (h : ∀ c ∈ s, c.toNat < 128) :
    encodeMsg s = mkFrame s := by
  unfold encodeMsg mkFrame
  rw [utf8Len_ascii h]

theorem filterMap_parse_stringify : ∀ {js : List Json},
    (∀ j ∈ js, Json.parse (Json.stringify j) = some j) →
    (js.map Json.stringify).filterMap Json.parse = js
  | [], _ => rfl
  | j :: js, hp => by
    simp only [List.map_cons, List.filterMap_cons, hp j (by simp)]
    rw [filterMap_parse_stringify (fun x hx => hp x (by simp [hx]))]

/-- C1 (amended): for a stream that is a concatenation of frames as
`encodeMsg` produces them — a lone `Content-Length` header line, no
further header lines, all-ASCII payloads that `JSON.parse` accepts —
delivered under any chunk boundaries whatsoever, the decode loop emits
exactly the N decoded JSON values in order and consumes the whole
stream. -/
theorem lsp_c1_framer_chunked_decode (js : List Json) (chunks : List (List Char))
    (hascii : ∀ j ∈ js, ∀ c ∈ Json.stringify j, c.toNat < 128)
    (hparse : ∀ j ∈ js, Json.parse (Json.stringify j) = some j)
    (hchunks : chunks.flatten =
      (js.map (fun j => encodeMsg (Json.stringify j))).flatten) :
    (feedAll chunks initFramer).emitted = js ∧
      (feedAll chunks initFramer).buffer = [] := by
  have hmap : js.map (fun j => encodeMsg (Json.stringify j)) =
      (js.map Json.stringify).map mkFrame := by
    rw [List.map_map]
    exact List.map_congr_left
      (fun j hj => encodeMsg_eq_mkFrame (hascii j hj))
  have h1 := feedAll_initFramer chunks
  rw [hchunks, hmap, processBuffer_frames,
    filterMap_parse_stringify hparse] at h1
  rw [h1]
  exact ⟨rfl, rfl⟩

/-- Witness for C1: the encoding of `null` delivered byte by byte. -/
theorem lsp_c1_witness :
    (feedAll ((encodeMsg (Json.stringify Json.null)).map (fun c => [c]))
        initFramer).emitted = [Json.null] ∧
      (feedAll ((encodeMsg (Json.stringify Json.null)).map (fun c => [c]))
        initFramer).buffer = [] :=
  lsp_c1_framer_chunked_decode [Json.null] _
    (by decide)
    (by
      intro j hj
      simp only [List.mem_singleton] at hj
      subst hj
      rfl)
    (by decide)

/-- The byte stream of the C1 counterexample: one message framed per
the wire format of the spec, with one extra header line between the
`Content-Length` header and the blank line.  The payload is the
two ASCII characters of the empty JSON object, and the declared
length 2 is its exact byte count. -/
def c1CexStream : List Char :=
  "Content-Length: 2\r\nX-Notify: yes\r\n\r\n\x7b\x7d".toList

/-- Counterexample to C1 as stated: the decode loop of the source
requires the terminator to follow the `Content-Length` header
immediately, so a frame with an extra header line after
`Content-Length` is never decoded — the loop emits nothing and the
buffer retains the whole frame forever, where the claim demands the
one decoded message `\x7b\x7d`. -/
theorem lsp_c1_counterexample :
    Json.parse [Char.ofNat 123, Char.ofNat 125] = some (Json.obj []) ∧
      (feed initFramer c1CexStream).emitted = [] ∧
      (feed initFramer c1CexStream).buffer = c1CexStream ∧
      ([] : List Json) ≠ [Json.obj []] := by
  have hcl : findCl c1CexStream = none := by decide
  have hpb : processBuffer c1CexStream = (c1CexStream, []) := by
    rw [processBuffer, hcl]
  refine ⟨rfl, ?_, ?_, by simp⟩
  · show ([] : List Json) ++ (processBuffer ([] ++ c1CexStream)).2 = []
    simp only [List.nil_append]
    rw [hpb]
  · show (processBuffer ([] ++ c1CexStream)).1 = c1CexStream
    simp only [List.nil_append]
    rw [hpb]

/-- The payload of the C5 failing input: the object pairing key `s`
with the one-character string `é` (U+00E9, two bytes in UTF-8, one
UTF-16 code unit). -/
def c5Msg : Json := Json.obj [("s".toList, Json.str [Char.ofNat 233])]

/-- C5 (code bug): `encode` correctly declares the UTF-8 byte length
(10) of the serialized payload, but the decode loop measures and
slices the buffer in UTF-16 code units (the payload is 9 of those), so
`feed` on the encoder's own output never extracts the message: the
round-trip the spec demands emits nothing and the buffer is stuck
waiting for a tenth payload character forever.  The payload itself is
well-formed JSON that parses back to the original value. -/
theorem lsp_c5_multibyte_roundtrip_fails :
    Json.parse (Json.stringify c5Msg) = some c5Msg ∧
      utf8Len (Json.stringify c5Msg) = 10 ∧
      (Json.stringify c5Msg).length = 9 ∧
      (feed initFramer (encodeMsg (Json.stringify c5Msg))).emitted = [] ∧
      (feed initFramer (encodeMsg (Json.stringify c5Msg))).buffer =
        encodeMsg (Json.stringify c5Msg) := by
  have hcl : findCl (encodeMsg (Json.stringify c5Msg)) = some 10 := by decide
  have hpb : processBuffer (encodeMsg (Json.stringify c5Msg)) =
      (encodeMsg (Json.stringify c5Msg), []) := by
    rw [processBuffer, hcl]
    dsimp only
    rw [dif_neg (by decide)]
  refine ⟨rfl, by decide, by decide, ?_, ?_⟩
  · show ([] : List Json) ++
      (processBuffer ([] ++ encodeMsg (Json.stringify c5Msg))).2 = []
    simp only [List.nil_append]
    rw [hpb]
  · show (processBuffer ([] ++ encodeMsg (Json.stringify c5Msg))).1 =
      encodeMsg (Json.stringify c5Msg)
    simp only [List.nil_append]
    rw [hpb]

/-- C9: feeding any chunking of a stream of well-formed frames whose
payloads may or may not parse — the model is a total function, so no
input throws — emits exactly the values of the payloads `JSON.parse`
accepts, in order: a malformed payload is dropped with its bytes
consumed, and decoding of the following messages continues
unaffected. -/
theorem lsp_c9_malformed_payload_resilience (ps : List (List Char))
    (chunks : List (List Char))
    (hchunks : chunks.flatten = (ps.map mkFrame).flatten) :
    (feedAll chunks initFramer).emitted = ps.filterMap Json.parse ∧
      (feedAll chunks initFramer).buffer = [] := by
  have h1 := feedAll_initFramer chunks
  rw [hchunks, processBuffer_frames] at h1
  rw [h1]
  exact ⟨rfl, rfl⟩

/-- Witness for C9: a frame whose payload is the unparseable `nope`
followed by a frame carrying `null`; the first is discarded and the
second still decodes. -/
theorem lsp_c9_witness :
    (feedAll [mkFrame "nope".toList ++ mkFrame "null".toList]
        initFramer).emitted = [Json.null] ∧
      (feedAll [mkFrame "nope".toList ++ mkFrame "null".toList]
        initFramer).buffer = [] := by
  have h := lsp_c9_malformed_payload_resilience
    ["nope".toList, "null".toList]
    [mkFrame "nope".toList ++ mkFrame "null".toList]
    (by simp)
  refine ⟨?_, h.2⟩
  rw [h.1]
  rfl

/-! ## Request Correlator and message routing
(src/unnamed/part_000, lines 1213-1307) -/

/-- Per-server mutable state of the main process: the fields of the
`serverData` record that the correlator touches.  The promise
callbacks of `pendingRequests` are identified by their request id,
which is unique per instance, so the map is modelled by its key
list in insertion order. -/
structure ServerData where
  messageBuffer : List Char
  pendingIds : List Nat
  requestIdCounter : Nat

/-- Observable settlements and routings: every `resolve`/`reject` call
on a pending request's promise pair, and every notification forwarded
to the renderer. -/
inductive LspEvent where
  | resolved (id : Nat) (result : Option Json)
  | rejectedServerError (id : Nat) (message : Option Json)
  | rejectedTimeout (id : Nat)
  | rejectedWriteError (id : Nat)
  | diagnostics (params : Option Json)

/-- JavaScript property access `m[key]` on a parsed JSON value:
`none` models `undefined`. -/
def jGet (m : Json) (key : List Char) : Option Json :=
  match m with
  | .obj fs => (fs.find? (fun kv => kv.1 = key)).map (fun kv => kv.2)
  | _ => none

/-- JavaScript truthiness of a possibly-`undefined` JSON value, as
`if (message.error)` and `if (message.method)` test it. -/
def jTruthy : Option Json → Bool
  | none => false
  | some .null => false
  | some (.bool b) => b
  | some (.num i) => i != 0
  | some (.str s) => !s.isEmpty
  | some (.arr _) => true
  | some (.obj _) => true

/-- Model of the `serverData.pendingRequests.get(message.id)` key lookup: the map's
keys are the numbers the correlator allocated, so only a numeric
`message.id` equal to one of them hits (`Map.get` uses SameValueZero
equality, under which a string or `null` id misses every numeric
key). -/
def pendingLookup (pending : List Nat) (idv : Json) : Option Nat :=
  match idv with
  | .num i => pending.find? (fun k => (k : Int) == i)
  | _ => none

/-- Model of `handleLSPMessage` (lines 1213-1240) acting on one server's state:
a message with a known `id` settles that pending request — `reject`
with the error's `message` field when `message.error` is truthy,
`resolve` with `message.result` otherwise — and a message with a
`method` is additionally routed as a notification, of which only
`textDocument/publishDiagnostics` is forwarded. -/
def handleMsgData (sd : ServerData) (message : Json) : ServerData × List LspEvent :=
  let (sd1, evs1) : ServerData × List LspEvent :=
    match jGet message ("id".toList) with
    | none => (sd, [])
    | some idv =>
      match pendingLookup sd.pendingIds idv with
      | none => (sd, [])
      | some k =>
        let sd' := { sd with pendingIds := sd.pendingIds.erase k }
        if jTruthy (jGet message ("error".toList)) then
          (sd', [.rejectedServerError k
            ((jGet message ("error".toList)).bind (fun e => jGet e ("message".toList)))])
        else
          (sd', [.resolved k (jGet message ("result".toList))])
  let evs2 :=
    if jTruthy (jGet message ("method".toList)) then
      match jGet message ("method".toList) with
      | some (.str s) =>
        if s = "textDocument/publishDiagnostics".toList then
          [.diagnostics (jGet message ("params".toList))]
        else []
      | _ => []
    else []
  (sd1, evs1 ++ evs2)

/-- The registry of running servers, `lspServers`: serverId to state. -/
def Registry := List (String × ServerData)

/-- Model of `lspServers.get(serverId)`. -/
def regGet (reg : Registry) (sid : String) : Option ServerData :=
  (reg.find? (fun e => e.1 = sid)).map (fun e => e.2)

/-- Model of `lspServers.delete(serverId)`. -/
def regDelete (reg : Registry) (sid : String) : Registry :=
  reg.eraseP (fun e => e.1 = sid)

/-- Model of `handleLSPMessage` at the registry level: an unknown `serverId`
returns without touching anything. -/
def handleLSPMessage (reg : Registry) (sid : String) (message : Json) :
    Registry × List LspEvent :=
  match regGet reg sid with
  | none => (reg, [])
  | some sd =>
    let (sd', evs) := handleMsgData sd message
    (reg.map (fun e => if e.1 = sid then (e.1, sd') else e), evs)

/-- The request object built by `'send-lsp-request'` (lines 1249-1256)
for the freshly incremented id. -/
def requestJson (rid : Nat) (method : List Char) (params : Json) : Json :=
  .obj [("jsonrpc".toList, .str ("2.0".toList)),
        ("id".toList, .num rid),
        ("method".toList, .str method),
        ("params".toList, params)]

/-- Model of `'send-lsp-request'` up to the write (lines 1243-1263): allocate
`++requestIdCounter`, register the pending entry, and frame the
serialized request for `stdin.write`.  Returns the new state, the id
and the wire bytes. -/
def sendRequest (sd : ServerData) (method : List Char) (params : Json) :
    ServerData × Nat × List Char :=
  let rid := sd.requestIdCounter + 1
  let content := Json.stringify (requestJson rid method params)
  ({ sd with requestIdCounter := rid, pendingIds := sd.pendingIds ++ [rid] },
    rid, encodeMsg content)

/-- The `stdin.write` callback on a write error (lines 1264-1269):
delete the pending entry and reject the promise with the error. -/
def writeFailed (sd : ServerData) (rid : Nat) : ServerData × List LspEvent :=
  ({ sd with pendingIds := sd.pendingIds.erase rid }, [.rejectedWriteError rid])

/-- The 30-second `setTimeout` callback (lines 1272-1277): if the id
is still pending, delete it and reject with the timeout error;
otherwise do nothing. -/
def timeoutFire (sd : ServerData) (rid : Nat) : ServerData × List LspEvent :=
  if sd.pendingIds.contains rid then
    ({ sd with pendingIds := sd.pendingIds.erase rid }, [.rejectedTimeout rid])
  else (sd, [])

/-- The `'exit'` handler (lines 1199-1202): remove the instance from
the registry.  Nothing else happens — in particular no pending request
is settled, which the empty event list records. -/
def exitHandler (reg : Registry) (sid : String) : Registry × List LspEvent :=
  (regDelete reg sid, [])

/-- Model of `'stop-lsp-server'` (lines 1301-1307): kill the process (an
external effect) and remove the instance from the registry; again no
pending request is settled. -/
def stopServer (reg : Registry) (sid : String) : Registry × List LspEvent :=
  match regGet reg sid with
  | some _ => (regDelete reg sid, [])
  | none => (reg, [])

/-- A response message carrying `id` and `result`, as a language
server replies. -/
def responseJson (rid : Nat) (result : Json) : Json :=
  .obj [("jsonrpc".toList, .str ("2.0".toList)),
        ("id".toList, .num rid),
        ("result".toList, result)]

/-- Deliver a list of already-decoded messages to one server's state
in order, accumulating the settlements. -/
def deliverAll (sd : ServerData) : List Json → ServerData × List LspEvent
  | [] => (sd, [])
  | m :: ms =>
    let r := handleMsgData sd m
    let rest := deliverAll r.1 ms
    (rest.1, r.2 ++ rest.2)

/-- Fire the pending timeout timers for the listed ids, in order. -/
def fireTimeouts (sd : ServerData) : List Nat → ServerData × List LspEvent
  | [] => (sd, [])
  | rid :: rids =>
    let r := timeoutFire sd rid
    let rest := fireTimeouts r.1 rids
    (rest.1, r.2 ++ rest.2)

/-! ## Correlator lemmas -/

theorem pendingLookup_mem {pending : List Nat} {rid : Nat} (h : rid ∈ pending) :
    pendingLookup pending (.num rid) = some rid := by
  induction pending with
  | nil => cases h
  | cons k ks ih =>
    simp only [pendingLookup] at ih ⊢
    by_cases hk : k = rid
    · subst hk
      simp [List.find?]
    · rw [List.find?_cons_of_neg _ (by simp; omega)]
      have h' : rid ∈ ks := by
        rcases List.mem_cons.mp h with h1 | h1
        · exact absurd h1.symm hk
        · exact h1
      exact ih h'

theorem pendingLookup_not_mem {pending : List Nat} {rid : Nat}
    (h : rid ∉ pending) : pendingLookup pending (.num rid) = none := by
  induction pending with
  | nil => rfl
  | cons k ks ih =>
    simp only [pendingLookup] at ih ⊢
    rw [List.find?_cons_of_neg _ (by
      simp
      intro hk
      exact absurd (by simp [hk]) h)]
    exact ih (fun hx => h (by simp [hx]))

theorem jGet_response_id (rid : Nat) (r : Json) :
    jGet (responseJson rid r) ("id".toList) = some (.num (rid : Int)) := rfl

theorem jGet_response_error (rid : Nat) (r : Json) :
    jGet (responseJson rid r) ("error".toList) = none := rfl

theorem jGet_response_result (rid : Nat) (r : Json) :
    jGet (responseJson rid r) ("result".toList) = some r := rfl

theorem jGet_response_method (rid : Nat) (r : Json) :
    jGet (responseJson rid r) ("method".toList) = none := rfl

/-- A response whose id is pending settles exactly that request:
the entry is deleted and its promise resolved with the `result`
field. -/
theorem handleMsgData_response {sd : ServerData} (rid : Nat) (r : Json)
    (h : rid ∈ sd.pendingIds) :
    handleMsgData sd (responseJson rid r) =
      ({ sd with pendingIds := sd.pendingIds.erase rid },
        [.resolved rid (some r)]) := by
  simp only [handleMsgData, jGet_response_id, jGet_response_error,
    jGet_response_result, jGet_response_method, pendingLookup_mem h, jTruthy,
    Bool.false_eq_true, if_false, List.append_nil]

/-- A response whose id is not pending is ignored entirely. -/
theorem handleMsgData_response_missing {sd : ServerData} (rid : Nat) (r : Json)
    (h : rid ∉ sd.pendingIds) :
    handleMsgData sd (responseJson rid r) = (sd, []) := by
  simp only [handleMsgData, jGet_response_id, jGet_response_error,
    jGet_response_result, jGet_response_method, pendingLookup_not_mem h, jTruthy,
    Bool.false_eq_true, if_false, List.append_nil]

/-! ## Correlator claims -/

/-- C2: for any set of outstanding requests and any delivery order of
their responses — each response tagging its own id with its own
payload — every pending promise is resolved with exactly the payload
carried by the response bearing its id, in delivery order;
correlation is by id, not arrival order. -/
theorem lsp_c2_id_correlation (sd : ServerData) (perm : List Nat)
    (f : Nat → Json) (hnd : perm.Nodup)
    (hsub : ∀ i ∈ perm, i ∈ sd.pendingIds) :
    (deliverAll sd (perm.map (fun i => responseJson i (f i)))).2 =
      perm.map (fun i => LspEvent.resolved i (some (f i))) := by
  induction perm generalizing sd with
  | nil => rfl
  | cons i rest ih =>
    have hi : i ∈ sd.pendingIds := hsub i (by simp)
    simp only [List.map_cons, deliverAll, handleMsgData_response i (f i) hi]
    have hsub' : ∀ x ∈ rest, x ∈ sd.pendingIds.erase i := by
      intro x hx
      have hxi : x ≠ i := by
        intro hxe
        subst hxe
        exact (List.nodup_cons.mp hnd).1 hx
      exact (List.mem_erase_of_ne hxi).mpr (hsub x (by simp [hx]))
    rw [ih { sd with pendingIds := sd.pendingIds.erase i }
      (List.nodup_cons.mp hnd).2 hsub']
    rfl

/-- Witness for C2: ids 1,2,3 outstanding, responses delivered in
order 3,1,2, each carrying its id as payload; each promise resolves
with its own payload. -/
theorem lsp_c2_witness :
    (deliverAll ⟨[], [1, 2, 3], 3⟩
        ([3, 1, 2].map (fun i => responseJson i (Json.num i)))).2 =
      [3, 1, 2].map (fun i => LspEvent.resolved i (some (Json.num i))) :=
  lsp_c2_id_correlation ⟨[], [1, 2, 3], 3⟩ [3, 1, 2] (fun i => Json.num i)
    (by decide) (by decide)

/-- C4: when the 30-second timer fires for a still-pending request,
that request is rejected with the timeout error exactly once and its
entry removed; a response for the same id arriving afterwards is
silently dropped — it changes no state and settles no promise — and
the timer cannot fire a second time. -/
theorem lsp_c4_timeout_then_late_response (sd : ServerData) (rid : Nat)
    (r : Json) (hmem : rid ∈ sd.pendingIds) (hnd : sd.pendingIds.Nodup) :
    (timeoutFire sd rid).2 = [.rejectedTimeout rid] ∧
      handleMsgData (timeoutFire sd rid).1 (responseJson rid r) =
        ((timeoutFire sd rid).1, []) ∧
      (timeoutFire (timeoutFire sd rid).1 rid).2 = [] := by
  have hcont : sd.pendingIds.contains rid = true := by
    simpa using hmem
  have hfire : timeoutFire sd rid =
      ({ sd with pendingIds := sd.pendingIds.erase rid }, [.rejectedTimeout rid]) := by
    unfold timeoutFire
    rw [if_pos hcont]
  have hgone : rid ∉ sd.pendingIds.erase rid := by
    intro hx
    exact absurd (hnd.mem_erase_iff.mp hx).1 (by simp)
  refine ⟨by rw [hfire], ?_, ?_⟩
  · rw [hfire]
    exact handleMsgData_response_missing rid r hgone
  · rw [hfire]
    unfold timeoutFire
    rw [if_neg (by simpa using hgone)]

/-- Witness for C4 at a concrete state: one pending request with id 1. -/
theorem lsp_c4_witness :
    (timeoutFire ⟨[], [1], 1⟩ 1).2 = [.rejectedTimeout 1] ∧
      handleMsgData (timeoutFire ⟨[], [1], 1⟩ 1).1 (responseJson 1 (Json.num 7)) =
        ((timeoutFire ⟨[], [1], 1⟩ 1).1, []) ∧
      (timeoutFire (timeoutFire ⟨[], [1], 1⟩ 1).1 1).2 = [] :=
  lsp_c4_timeout_then_late_response ⟨[], [1], 1⟩ 1 (Json.num 7)
    (by decide) (by decide)

/-- C10: a write error on the freshly sent request deletes the just
registered pending entry and rejects the caller's promise with the
write error; afterwards neither a response for that id nor its
timeout timer can settle anything again. -/
theorem lsp_c10_write_error_cleanup (sd : ServerData) (method : List Char)
    (params r : Json)
    (hfresh : ∀ k ∈ sd.pendingIds, k ≤ sd.requestIdCounter) :
    (writeFailed (sendRequest sd method params).1
        (sendRequest sd method params).2.1).2 =
      [.rejectedWriteError (sendRequest sd method params).2.1] ∧
      (writeFailed (sendRequest sd method params).1
        (sendRequest sd method params).2.1).1.pendingIds = sd.pendingIds ∧
      handleMsgData (writeFailed (sendRequest sd method params).1
          (sendRequest sd method params).2.1).1
          (responseJson (sendRequest sd method params).2.1 r) =
        ((writeFailed (sendRequest sd method params).1
          (sendRequest sd method params).2.1).1, []) ∧
      (timeoutFire (writeFailed (sendRequest sd method params).1
          (sendRequest sd method params).2.1).1
          (sendRequest sd method params).2.1).2 = [] := by
  have hrid : (sendRequest sd method params).2.1 = sd.requestIdCounter + 1 := rfl
  have hfreshr : sd.requestIdCounter + 1 ∉ sd.pendingIds := by
    intro hx
    have := hfresh _ hx
    omega
  have hpend : (sendRequest sd method params).1.pendingIds =
      sd.pendingIds ++ [sd.requestIdCounter + 1] := rfl
  have herase : (sd.pendingIds ++ [sd.requestIdCounter + 1]).erase
      (sd.requestIdCounter + 1) = sd.pendingIds := by
    rw [List.erase_append_right _ hfreshr]
    simp
  have hwf : (writeFailed (sendRequest sd method params).1
      (sendRequest sd method params).2.1).1.pendingIds = sd.pendingIds := by
    show ((sendRequest sd method params).1.pendingIds.erase
      (sendRequest sd method params).2.1) = sd.pendingIds
    rw [hrid, hpend, herase]
  refine ⟨rfl, hwf, ?_, ?_⟩
  · rw [hrid] at hwf ⊢
    exact handleMsgData_response_missing _ r (by rw [hwf]; exact hfreshr)
  · unfold timeoutFire
    rw [if_neg (by rw [hrid] at hwf ⊢; rw [hwf]; simpa using hfreshr)]

/-- Witness for C10 at a concrete state: counter 1, one pending id 1;
the new request gets id 2. -/
theorem lsp_c10_witness :
    (writeFailed (sendRequest ⟨[], [1], 1⟩ ("m".toList) Json.null).1
        (sendRequest ⟨[], [1], 1⟩ ("m".toList) Json.null).2.1).2 =
      [.rejectedWriteError (sendRequest ⟨[], [1], 1⟩ ("m".toList) Json.null).2.1] ∧
      (writeFailed (sendRequest ⟨[], [1], 1⟩ ("m".toList) Json.null).1
        (sendRequest ⟨[], [1], 1⟩ ("m".toList) Json.null).2.1).1.pendingIds = [1] ∧
      handleMsgData (writeFailed (sendRequest ⟨[], [1], 1⟩ ("m".toList) Json.null).1
          (sendRequest ⟨[], [1], 1⟩ ("m".toList) Json.null).2.1).1
          (responseJson (sendRequest ⟨[], [1], 1⟩ ("m".toList) Json.null).2.1 (Json.num 7)) =
        ((writeFailed (sendRequest ⟨[], [1], 1⟩ ("m".toList) Json.null).1
          (sendRequest ⟨[], [1], 1⟩ ("m".toList) Json.null).2.1).1, []) ∧
      (timeoutFire (writeFailed (sendRequest ⟨[], [1], 1⟩ ("m".toList) Json.null).1
          (sendRequest ⟨[], [1], 1⟩ ("m".toList) Json.null).2.1).1
          (sendRequest ⟨[], [1], 1⟩ ("m".toList) Json.null).2.1).2 = [] :=
  lsp_c10_write_error_cleanup ⟨[], [1], 1⟩ ("m".toList) Json.null (Json.num 7)
    (by decide)

theorem jGet_request_id (rid : Nat) (m : List Char) (p : Json) :
    jGet (requestJson rid m p) ("id".toList) = some (.num (rid : Int)) := rfl

theorem jGet_request_error (rid : Nat) (m : List Char) (p : Json) :
    jGet (requestJson rid m p) ("error".toList) = none := rfl

theorem jGet_request_result (rid : Nat) (m : List Char) (p : Json) :
    jGet (requestJson rid m p) ("result".toList) = none := rfl

theorem jGet_request_method (rid : Nat) (m : List Char) (p : Json) :
    jGet (requestJson rid m p) ("method".toList) = some (.str m) := rfl

/-- Counterexample to C8 as stated: a server-to-client request (it
has both `id` and `method`) whose id happens to equal an outstanding
client request id 2 IS matched against the pending map: the handler
deletes the entry and resolves the caller's promise — with
`message.result`, i.e. `undefined` — instead of recognizing a
non-response and leaving the correlator alone. -/
theorem lsp_c8_counterexample :
    handleMsgData ⟨[], [2], 2⟩
        (requestJson 2 ("workspace/configuration".toList) (Json.obj [])) =
      (⟨[], [], 2⟩, [.resolved 2 none]) ∧
      ([LspEvent.resolved 2 none] : List LspEvent) ≠ [] :=
  ⟨rfl, by simp⟩

/-- C8 (amended): a message carrying both an `id` and a `method` is
first run through the response path — if its id collides with a
pending client request, that request's promise is resolved with the
message's `result` field (`undefined` for a request) and the entry
removed — and then through the notification path, which forwards only
`textDocument/publishDiagnostics`; it is never answered or explicitly
rejected. -/
theorem lsp_c8_server_request_misrouted (sd : ServerData) (rid : Nat)
    (method : List Char) (params : Json) (hmem : rid ∈ sd.pendingIds)
    (hne : method ≠ [])
    (hmeth : method ≠ "textDocument/publishDiagnostics".toList) :
    handleMsgData sd (requestJson rid method params) =
      ({ sd with pendingIds := sd.pendingIds.erase rid },
        [.resolved rid none]) := by
  have hie : method.isEmpty = false := by
    cases method with
    | nil => exact absurd rfl hne
    | cons a l => rfl
  simp only [handleMsgData, jGet_request_id, jGet_request_error,
    jGet_request_result, jGet_request_method, pendingLookup_mem hmem, jTruthy,
    Bool.false_eq_true, if_false, hie, Bool.not_false, if_true,
    if_neg hmeth, List.append_nil]

/-- Witness for the amended C8 at the concrete colliding state. -/
theorem lsp_c8_witness :
    handleMsgData ⟨[], [2], 2⟩
        (requestJson 2 ("workspace/configuration".toList) (Json.obj [])) =
      ({ (⟨[], [2], 2⟩ : ServerData) with pendingIds := ([2] : List Nat).erase 2 },
        [.resolved 2 none]) :=
  lsp_c8_server_request_misrouted ⟨[], [2], 2⟩ 2
    ("workspace/configuration".toList) (Json.obj [])
    (by decide) (by decide) (by decide)

/-- Firing every pending timer of a server, in list order, rejects
each outstanding request with the timeout error exactly once and
leaves no pending entry. -/
theorem fireTimeouts_all : ∀ (rids : List Nat) (sd : ServerData),
    sd.pendingIds = rids → rids.Nodup →
    (fireTimeouts sd rids).2 = rids.map LspEvent.rejectedTimeout ∧
      (fireTimeouts sd rids).1.pendingIds = []
  | [], sd, h, _ => ⟨rfl, by rw [show (fireTimeouts sd []).1 = sd from rfl, h]⟩
  | rid :: rest, sd, h, hnd => by
    have hcont : sd.pendingIds.contains rid = true := by
      rw [h]
      simp
    have hfire : timeoutFire sd rid =
        ({ sd with pendingIds := rest }, [.rejectedTimeout rid]) := by
      unfold timeoutFire
      rw [if_pos hcont, h, List.erase_cons_head]
    have ih := fireTimeouts_all rest { sd with pendingIds := rest } rfl
      (List.nodup_cons.mp hnd).2
    simp only [fireTimeouts, hfire, List.map_cons]
    exact ⟨by rw [ih.1]; rfl, ih.2⟩

/-- Counterexample to C3 as stated: at the moment the `'exit'` handler
runs (and likewise `'stop-lsp-server'`), the instance is removed from
the registry while its two outstanding requests receive no settlement
whatsoever — no event at all is produced, where the claim demands two
immediate TransportClosed failures. -/
theorem lsp_c3_counterexample :
    (exitHandler [("lsp-rust-1", ⟨[], [1, 2], 2⟩)] "lsp-rust-1").2 = [] ∧
      regGet (exitHandler [("lsp-rust-1", ⟨[], [1, 2], 2⟩)] "lsp-rust-1").1
        "lsp-rust-1" = none ∧
      (stopServer [("lsp-rust-1", ⟨[], [1, 2], 2⟩)] "lsp-rust-1").2 = [] ∧
      (⟨[], [1, 2], 2⟩ : ServerData).pendingIds.length = 2 :=
  ⟨rfl, rfl, rfl, rfl⟩

/-- C3 (amended): exiting or stopping an instance settles none of its
pending requests at that point; each outstanding request is instead
rejected later by its own 30-second timer — which captured the server
data and still finds its id pending — with the timeout error, so no
promise hangs forever, but none is failed as TransportClosed and none
at exit time. -/
theorem lsp_c3_exit_leaves_pending_to_timers (reg : Registry) (sid : String)
    (sd : ServerData) (hnd : sd.pendingIds.Nodup) :
    (exitHandler reg sid).2 = [] ∧
      (stopServer reg sid).2 = [] ∧
      (fireTimeouts sd sd.pendingIds).2 =
        sd.pendingIds.map LspEvent.rejectedTimeout ∧
      (fireTimeouts sd sd.pendingIds).1.pendingIds = [] := by
  have h := fireTimeouts_all sd.pendingIds sd rfl hnd
  refine ⟨rfl, ?_, h.1, h.2⟩
  unfold stopServer
  cases regGet reg sid <;> rfl

/-- Witness for the amended C3: a registry holding one instance with
two pending requests. -/
theorem lsp_c3_witness :
    (exitHandler [("lsp-rust-1", ⟨[], [1, 2], 2⟩)] "lsp-rust-1").2 = [] ∧
      (stopServer [("lsp-rust-1", ⟨[], [1, 2], 2⟩)] "lsp-rust-1").2 = [] ∧
      (fireTimeouts (⟨[], [1, 2], 2⟩ : ServerData)
        (⟨[], [1, 2], 2⟩ : ServerData).pendingIds).2 =
        (⟨[], [1, 2], 2⟩ : ServerData).pendingIds.map LspEvent.rejectedTimeout ∧
      (fireTimeouts (⟨[], [1, 2], 2⟩ : ServerData)
        (⟨[], [1, 2], 2⟩ : ServerData).pendingIds).1.pendingIds = [] :=
  lsp_c3_exit_leaves_pending_to_timers [("lsp-rust-1", ⟨[], [1, 2], 2⟩)]
    "lsp-rust-1" ⟨[], [1, 2], 2⟩ (by decide)

/-! ## Document Session Tracker (src/renderer/lsp.js) -/

/-- JavaScript `filePath.endsWith(ext)`: suffix test, here via the
reversed character lists so that it evaluates inside the kernel. -/
def strEndsWith (s post : String) : Bool :=
  leadsWith s.toList.reverse post.toList.reverse

/-- One entry of `languageServers`: the started server's id and the
`fileExtensions` of its configuration. -/
structure LangServer where
  id : String
  fileExtensions : List String
deriving DecidableEq

/-- Renderer-side state: `languageServers` (language to server, in
insertion order) and `documentVersions` (file path to version). -/
structure RendererState where
  languageServers : List (String × LangServer)
  documentVersions : List (String × Nat)

/-- The notifications the tracker sends through
`window.api.sendLSPNotification`. -/
inductive Notif where
  | didOpen (sid uri langId : String) (version : Nat) (text : String)
  | didChange (sid uri : String) (version : Nat) (text : String)
  | didSave (sid uri : String) (text : String)
  | didClose (sid uri : String)
deriving DecidableEq

/-- Model of `getServerForFile` (lsp.js lines 155-166): `null` for a falsy
path, otherwise the first registered server one of whose extensions
the path ends with. -/
def getServerForFile (ls : List (String × LangServer)) (filePath : String) :
    Option LangServer :=
  if filePath = "" then none
  else
    (ls.find? (fun e =>
      e.2.fileExtensions.any (fun ext => strEndsWith filePath ext))).map
      (fun e => e.2)

/-- Model of `documentVersions.get(k)`. -/
def verGet (m : List (String × Nat)) (k : String) : Option Nat :=
  (m.find? (fun e => e.1 = k)).map (fun e => e.2)

/-- Model of `documentVersions.set(k, v)`: replace in place, or append. -/
def verSet : List (String × Nat) → String → Nat → List (String × Nat)
  | [], k, v => [(k, v)]
  | (k', v') :: t, k, v =>
    if k' = k then (k, v) :: t else (k', v') :: verSet t k v

/-- Model of `documentVersions.delete(k)`. -/
def verDelete (m : List (String × Nat)) (k : String) : List (String × Nat) :=
  m.eraseP (fun e => e.1 = k)

/-- Model of `` `file://${filePath}` ``. -/
def fileUri (p : String) : String := "file://" ++ p

/-- Model of `didOpenDocument` (lines 171-186): no-op without a matching
server; otherwise record version 1 and send `textDocument/didOpen`
with version 1. -/
def didOpenDocument (st : RendererState) (filePath langId content : String) :
    RendererState × List Notif :=
  match getServerForFile st.languageServers filePath with
  | none => (st, [])
  | some srv =>
    ({ st with documentVersions := verSet st.documentVersions filePath 1 },
      [.didOpen srv.id (fileUri filePath) langId 1 content])

/-- Model of `didChangeDocument` (lines 191-210): no-op without a matching
server; otherwise `let version = documentVersions.get(filePath) || 1`
(a missing — or zero — version falls back to 1), increment, store, and
send `textDocument/didChange` with the incremented version and the
full text. -/
def didChangeDocument (st : RendererState) (filePath content : String) :
    RendererState × List Notif :=
  match getServerForFile st.languageServers filePath with
  | none => (st, [])
  | some srv =>
    let v0 := match verGet st.documentVersions filePath with
      | some v => if v = 0 then 1 else v
      | none => 1
    let version := v0 + 1
    ({ st with documentVersions := verSet st.documentVersions filePath version },
      [.didChange srv.id (fileUri filePath) version content])

/-- Model of `didSaveDocument` (lines 215-225): sends the text, touches no
version state. -/
def didSaveDocument (st : RendererState) (filePath content : String) :
    RendererState × List Notif :=
  match getServerForFile st.languageServers filePath with
  | none => (st, [])
  | some srv => (st, [.didSave srv.id (fileUri filePath) content])

/-- Model of `didCloseDocument` (lines 230-241): delete the version entry and
send `textDocument/didClose`. -/
def didCloseDocument (st : RendererState) (filePath : String) :
    RendererState × List Notif :=
  match getServerForFile st.languageServers filePath with
  | none => (st, [])
  | some srv =>
    ({ st with documentVersions := verDelete st.documentVersions filePath },
      [.didClose srv.id (fileUri filePath)])

/-- A script of document-lifecycle calls on one file. -/
inductive DocOp where
  | openDoc (langId text : String)
  | changeDoc (text : String)
  | closeDoc

/-- Run a script of calls on one file, collecting the notifications. -/
def runDocOps (st : RendererState) (filePath : String) :
    List DocOp → RendererState × List Notif
  | [] => (st, [])
  | op :: ops =>
    let r := match op with
      | .openDoc lid text => didOpenDocument st filePath lid text
      | .changeDoc text => didChangeDocument st filePath text
      | .closeDoc => didCloseDocument st filePath
    let rest := runDocOps r.1 filePath ops
    (rest.1, r.2 ++ rest.2)

theorem verGet_verSet (m : List (String × Nat)) (k : String) (v : Nat) :
    verGet (verSet m k v) k = some v := by
  induction m with
  | nil => simp [verSet, verGet, List.find?]
  | cons e t ih =>
    obtain ⟨k', v'⟩ := e
    unfold verSet
    by_cases hk : k' = k
    · rw [if_pos hk]
      simp [verGet, List.find?]
    · rw [if_neg hk]
      simp only [verGet] at ih ⊢
      rw [List.find?_cons_of_neg _ (by simp [hk])]
      exact ih

theorem didOpen_srv (st : RendererState) (filePath : String) (srv : LangServer)
    (hsrv : getServerForFile st.languageServers filePath = some srv)
    (langId content : String) :
    didOpenDocument st filePath langId content =
      ({ st with documentVersions := verSet st.documentVersions filePath 1 },
        [.didOpen srv.id (fileUri filePath) langId 1 content]) := by
  unfold didOpenDocument
  rw [hsrv]

theorem didChange_srv (st : RendererState) (filePath : String) (srv : LangServer)
    (hsrv : getServerForFile st.languageServers filePath = some srv) (v : Nat)
    (hver : verGet st.documentVersions filePath = some v) (hv : v ≠ 0)
    (content : String) :
    didChangeDocument st filePath content =
      ({ st with documentVersions := verSet st.documentVersions filePath (v + 1) },
        [.didChange srv.id (fileUri filePath) (v + 1) content]) := by
  unfold didChangeDocument
  rw [hsrv]
  dsimp only
  rw [hver]
  dsimp only
  rw [if_neg hv]

theorem didChange_no_session (st : RendererState) (filePath : String)
    (srv : LangServer)
    (hsrv : getServerForFile st.languageServers filePath = some srv)
    (hver : verGet st.documentVersions filePath = none) (content : String) :
    didChangeDocument st filePath content =
      ({ st with documentVersions := verSet st.documentVersions filePath 2 },
        [.didChange srv.id (fileUri filePath) 2 content]) := by
  unfold didChangeDocument
  rw [hsrv]
  dsimp only
  rw [hver]

theorem didClose_srv (st : RendererState) (filePath : String) (srv : LangServer)
    (hsrv : getServerForFile st.languageServers filePath = some srv) :
    didCloseDocument st filePath =
      ({ st with documentVersions := verDelete st.documentVersions filePath },
        [.didClose srv.id (fileUri filePath)]) := by
  unfold didCloseDocument
  rw [hsrv]

/-- C6: with a server registered for the file's language, `didOpen`
sends version 1, three subsequent `didChange` calls send versions
2, 3, 4, and after `didClose` a fresh `didOpen` of the same uri
starts again at version 1. -/
theorem lsp_c6_version_sequence (st : RendererState)
    (filePath lid t0 t1 t2 t3 t4 : String) (srv : LangServer)
    (hsrv : getServerForFile st.languageServers filePath = some srv) :
    (runDocOps st filePath
      [.openDoc lid t0, .changeDoc t1, .changeDoc t2, .changeDoc t3,
        .closeDoc, .openDoc lid t4]).2 =
      [.didOpen srv.id (fileUri filePath) lid 1 t0,
        .didChange srv.id (fileUri filePath) 2 t1,
        .didChange srv.id (fileUri filePath) 3 t2,
        .didChange srv.id (fileUri filePath) 4 t3,
        .didClose srv.id (fileUri filePath),
        .didOpen srv.id (fileUri filePath) lid 1 t4] := by
  simp only [runDocOps]
  rw [didOpen_srv st filePath srv hsrv lid t0]
  dsimp only
  rw [didChange_srv ⟨st.languageServers, verSet st.documentVersions filePath 1⟩
    filePath srv hsrv 1 (verGet_verSet _ _ _) (by omega) t1]
  dsimp only
  rw [didChange_srv
    ⟨st.languageServers, verSet (verSet st.documentVersions filePath 1) filePath 2⟩
    filePath srv hsrv 2 (verGet_verSet _ _ _) (by omega) t2]
  dsimp only
  rw [didChange_srv
    ⟨st.languageServers,
      verSet (verSet (verSet st.documentVersions filePath 1) filePath 2) filePath 3⟩
    filePath srv hsrv 3 (verGet_verSet _ _ _) (by omega) t3]
  dsimp only
  rw [didClose_srv
    ⟨st.languageServers,
      verSet (verSet (verSet (verSet st.documentVersions filePath 1) filePath 2)
        filePath 3) filePath 4⟩
    filePath srv hsrv]
  dsimp only
  rw [didOpen_srv
    ⟨st.languageServers,
      verDelete (verSet (verSet (verSet (verSet st.documentVersions filePath 1)
        filePath 2) filePath 3) filePath 4) filePath⟩
    filePath srv hsrv lid t4]
  rfl

/-- A concrete renderer state: a rust server handling `.rs` files, no
open document session. -/
def rsState : RendererState :=
  ⟨[("rust", ⟨"lsp-rust-1", [".rs"]⟩)], []⟩

/-- Witness for C6 at the concrete rust state. -/
theorem lsp_c6_witness :
    (runDocOps rsState "/a.rs"
      [.openDoc "rust" "fn", .changeDoc "fn ", .changeDoc "fn m",
        .changeDoc "fn ma", .closeDoc, .openDoc "rust" "x"]).2 =
      [.didOpen "lsp-rust-1" (fileUri "/a.rs") "rust" 1 "fn",
        .didChange "lsp-rust-1" (fileUri "/a.rs") 2 "fn ",
        .didChange "lsp-rust-1" (fileUri "/a.rs") 3 "fn m",
        .didChange "lsp-rust-1" (fileUri "/a.rs") 4 "fn ma",
        .didClose "lsp-rust-1" (fileUri "/a.rs"),
        .didOpen "lsp-rust-1" (fileUri "/a.rs") "rust" 1 "x"] :=
  lsp_c6_version_sequence rsState "/a.rs" "rust" "fn" "fn " "fn m" "fn ma" "x"
    ⟨"lsp-rust-1", [".rs"]⟩ (by decide)

/-- Counterexample to C7 as stated: with a rust server registered and
no session for `/a.rs` (exactly the state after a `didClose`),
`didChange` is NOT a no-op: it sends a `textDocument/didChange`
notification with version 2 and creates a version entry for the file. -/
theorem lsp_c7_counterexample :
    (didChangeDocument rsState "/a.rs" "x").2 =
      [.didChange "lsp-rust-1" (fileUri "/a.rs") 2 "x"] ∧
      (didChangeDocument rsState "/a.rs" "x").1.documentVersions =
        [("/a.rs", 2)] ∧
      ([Notif.didChange "lsp-rust-1" (fileUri "/a.rs") 2 "x"] : List Notif) ≠
        [] := by
  refine ⟨by decide, by decide, by simp⟩

/-- C7 (amended): a `didChange` with no preceding `didOpen` is a no-op
only when no registered server matches the file's extension; when one
does, the missing version defaults to 1 and the call sends a
`didChange` notification with version 2, creating a session entry with
version 2. -/
theorem lsp_c7_unopened_change (st : RendererState) (filePath content : String)
    (srv : LangServer)
    (hsrv : getServerForFile st.languageServers filePath = some srv)
    (hver : verGet st.documentVersions filePath = none) :
    didChangeDocument st filePath content =
      ({ st with documentVersions := verSet st.documentVersions filePath 2 },
        [.didChange srv.id (fileUri filePath) 2 content]) ∧
      ∀ (st2 : RendererState) (fp c : String),
        getServerForFile st2.languageServers fp = none →
        didChangeDocument st2 fp c = (st2, []) := by
  refine ⟨didChange_no_session st filePath srv hsrv hver content, ?_⟩
  intro st2 fp c hnone
  unfold didChangeDocument
  rw [hnone]

/-- Witness for the amended C7 at the concrete rust state. -/
theorem lsp_c7_witness :
    didChangeDocument rsState "/a.rs" "x" =
      ({ rsState with
          documentVersions := verSet rsState.documentVersions "/a.rs" 2 },
        [.didChange "lsp-rust-1" (fileUri "/a.rs") 2 "x"]) ∧
      ∀ (st2 : RendererState) (fp c : String),
        getServerForFile st2.languageServers fp = none →
        didChangeDocument st2 fp c = (st2, []) :=
  lsp_c7_unopened_change rsState "/a.rs" "x" ⟨"lsp-rust-1", [".rs"]⟩
    (by decide) (by decide)
